import Mathlib

/-!
Blockchain connection orchestration (`src/actions/BlockchainActions.js`).

A shallow embedding of the redux thunks `init`, `subscribe`, `onBlockMined`,
`onNotification`, `onError` and `autoReconnect`.

Every thunk is an `async` function. Its run is recorded as the list of effects it
performs, in the order in which it performs them, together with the way its promise
settles. Store reads (`getState()`) are explicit arguments: a thunk that reads the
store again after a suspension takes one state per read point. The two family
modules (`actions/ethereum/BlockchainActions`, `actions/ripple/BlockchainActions`)
and `String.prototype.toLowerCase` are collaborators and are taken as parameters.
-/

namespace BlockchainActions

/-! ## Data read from the store -/

/-- Entry of `state.discovery`; only its `network` field is read here. -/
structure Discovery where
  network : String
  deriving DecidableEq, Repr

/-- Entry of `state.localStorage.config.networks`: `shortcut` is the key, `type` the family. -/
structure Network where
  shortcut : String
  type : String
  deriving DecidableEq, Repr

/-- Modelled from the spec: the ConnectionState record held in `state.blockchain`
(the reducer that declares it is not among the sources); these are the fields the
thunks read. -/
structure Blockchain where
  shortcut : String
  connected : Bool
  connecting : Bool
  reconnectionAttempts : Nat
  deriving DecidableEq, Repr

/-- The slices of the store that `getState()` is asked for. -/
structure State where
  discovery : List Discovery
  networks : List Network
  blockchain : List Blockchain
  deriving DecidableEq, Repr

/-- Field `coin` of a payload coming from the connect library. -/
structure Coin where
  shortcut : String
  deriving DecidableEq, Repr

/-- Payload of a block, notification or error event; only `coin.shortcut` is read here. -/
structure Payload where
  coin : Coin
  deriving DecidableEq, Repr

/-! ## Effects -/

/-- Plain actions of type `BlockchainAction` that this module sends to the store. -/
inductive BlockchainAction where
  | READY
  | START_SUBSCRIBE (shortcut : String)
  deriving DecidableEq, Repr

/-- Thunks of this module that the module itself dispatches. -/
inductive Thunk where
  | subscribe (networkName : String)
  | autoReconnect (shortcut : String)
  deriving DecidableEq, Repr

/-- Thunks of a family module, as dispatched from here with their arguments. -/
inductive AdapterCall where
  | subscribe (networkName : String)
  | onBlockMined (network : Network)
  | onNotification (payload : Payload) (network : Network)
  | onError (shortcut : String)
  deriving DecidableEq, Repr

/-- One observable effect of a thunk. -/
inductive Event where
  | action (a : BlockchainAction)
  | thunk (t : Thunk)
  | ethereum (c : AdapterCall)
  | ripple (c : AdapterCall)
  | resolveAfter (ms : Nat)
  deriving DecidableEq, Repr

/-- How a promise settles. -/
inductive Outcome where
  | resolved
  | rejected
  deriving DecidableEq, Repr

/-- Run of an async thunk: the effects performed and how the returned promise settles. -/
structure Run where
  trace : List Event
  outcome : Outcome
  deriving DecidableEq, Repr

/-- An async function that returns without doing anything. -/
def Run.done : Run := ⟨[], Outcome.resolved⟩

/-- Synchronous effects `es` followed by the awaited run `r`, whose settlement is
the thunk's. -/
def Run.after (es : List Event) (r : Run) : Run :=
  ⟨es ++ r.trace, r.outcome⟩

/-- Sequencing after an `await`: the continuation runs only if the awaited promise
resolved; a rejection is rethrown and becomes the rejection of the whole thunk. -/
def Run.andThen (r k : Run) : Run :=
  match r.outcome with
  | Outcome.resolved => ⟨r.trace ++ k.trace, k.outcome⟩
  | Outcome.rejected => r

/-- The promise `Promise.all(results)`, where the calls behind `results` have all been
issued already, in list order: it resolves when every member resolved and rejects
when one of them rejected. -/
def promiseAll (results : List Run) : Run :=
  ⟨(results.map Run.trace).flatten,
   if results.all (fun r => r.outcome = Outcome.resolved) then Outcome.resolved
   else Outcome.rejected⟩

/-- How the promise of each thunk of one family module settles (the modules
themselves are not among the sources). -/
structure Adapter where
  subscribe : String → Outcome
  onBlockMined : Network → Outcome
  onNotification : Payload → Network → Outcome
  onError : String → Outcome

/-- Everything the module takes from outside: the string primitive
`String.prototype.toLowerCase` and the two family modules. -/
structure Env where
  toLowerCase : String → String
  ethereum : Adapter
  ripple : Adapter

/-- The call `dispatch(EthereumBlockchainActions.f(...))`, awaited. -/
def Env.callEthereum (env : Env) (c : AdapterCall) : Run :=
  ⟨[Event.ethereum c],
   match c with
   | AdapterCall.subscribe n => env.ethereum.subscribe n
   | AdapterCall.onBlockMined nw => env.ethereum.onBlockMined nw
   | AdapterCall.onNotification p nw => env.ethereum.onNotification p nw
   | AdapterCall.onError s => env.ethereum.onError s⟩

/-- The call `dispatch(RippleBlockchainActions.f(...))`, awaited. -/
def Env.callRipple (env : Env) (c : AdapterCall) : Run :=
  ⟨[Event.ripple c],
   match c with
   | AdapterCall.subscribe n => env.ripple.subscribe n
   | AdapterCall.onBlockMined nw => env.ripple.onBlockMined nw
   | AdapterCall.onNotification p nw => env.ripple.onNotification p nw
   | AdapterCall.onError s => env.ripple.onError s⟩

/-- The call `dispatch(t)` of one of this module's own thunks, whose run is `r`. -/
def dispatchThunk (t : Thunk) (r : Run) : Run :=
  ⟨Event.thunk t :: r.trace, r.outcome⟩

/-! ## Array primitives -/

/-- The method `Array.prototype.indexOf` on an array of strings: index of the first
equal element, `-1` when there is none. -/
def indexOf : List String → String → Int
  | [], _ => -1
  | x :: xs, a => if x = a then 0 else
      let i := indexOf xs a
      if i < 0 then -1 else i + 1

/-- The lookup `config.networks.find(c => c.shortcut === name)`. -/
def findNetwork (networks : List Network) (name : String) : Option Network :=
  networks.find? (fun c => decide (c.shortcut = name))

/-- The lookup `getState().blockchain.find(b => b.shortcut === shortcut)`. -/
def findBlockchain (blockchain : List Blockchain) (shortcut : String) : Option Blockchain :=
  blockchain.find? (fun b => decide (b.shortcut = shortcut))

/-! ## The thunks -/

/-- Lines 54-77. -/
def subscribe (env : Env) (st : State) (networkName : String) : Run :=
  match findNetwork st.networks networkName with
  | none => Run.done
  | some network =>
    Run.after [Event.action (BlockchainAction.START_SUBSCRIBE network.shortcut)]
      (match network.type with
       | "ethereum" => env.callEthereum (AdapterCall.subscribe networkName)
       | "ripple" => env.callRipple (AdapterCall.subscribe networkName)
       | _ => Run.done)

/-- Lines 35-40: the distinct values of `discovery.network`, collected with
`indexOf` and `push`. -/
def uniqueNetworks (discovery : List Discovery) : List String :=
  discovery.foldl
    (fun networks d => if indexOf networks d.network < 0 then networks ++ [d.network] else networks)
    []

/-- Lines 29-52. The store's `discovery` and `config` slices are the same at every
read of this run. -/
def init (env : Env) (st : State) : Run :=
  Run.andThen
    (if st.discovery.length > 0 then
      let networks := uniqueNetworks st.discovery
      let results := networks.map (fun n => dispatchThunk (Thunk.subscribe n) (subscribe env st n))
      promiseAll results
     else Run.done)
    ⟨[Event.action BlockchainAction.READY], Outcome.resolved⟩

/-- Lines 79-98. -/
def onBlockMined (env : Env) (st : State) (payload : Payload) : Run :=
  let shortcut := env.toLowerCase payload.coin.shortcut
  match findNetwork st.networks shortcut with
  | none => Run.done
  | some network =>
    match network.type with
    | "ethereum" => env.callEthereum (AdapterCall.onBlockMined network)
    | "ripple" => env.callRipple (AdapterCall.onBlockMined network)
    | _ => Run.done

/-- Lines 100-119. -/
def onNotification (env : Env) (st : State) (payload : Payload) : Run :=
  let shortcut := env.toLowerCase payload.coin.shortcut
  match findNetwork st.networks shortcut with
  | none => Run.done
  | some network =>
    match network.type with
    | "ethereum" => env.callEthereum (AdapterCall.onNotification payload network)
    | "ripple" => env.callRipple (AdapterCall.onNotification payload network)
    | _ => Run.done

/-- Run of a thunk that may suspend on a timer: `entry` is what it does synchronously
inside its caller, up to and including the start of the timer; `resumed` is what it
does once the timer has fired. -/
structure TimedRun where
  entry : List Event
  resumed : Run
  deriving DecidableEq, Repr

/-- Lines 147-160. `st` is the store at the call, `woken` the store when the delay
has elapsed. -/
def autoReconnect (env : Env) (st woken : State) (shortcut : String) : TimedRun :=
  match findBlockchain st.blockchain shortcut with
  | none => ⟨[], Run.done⟩
  | some blockchain =>
    if blockchain.reconnectionAttempts ≥ 5 then ⟨[], Run.done⟩
    else
      ⟨[Event.resolveAfter (5000 * (blockchain.reconnectionAttempts + 1))],
       match findBlockchain woken.blockchain shortcut with
       | none => Run.done
       | some blockchain =>
         if blockchain.connected || blockchain.connecting then Run.done
         else dispatchThunk (Thunk.subscribe shortcut) (subscribe env woken shortcut)⟩

/-- Run of a thunk that dispatches another thunk without awaiting it: `own` is its own
control flow up to its settlement, the synchronous part of the dispatched thunk
included; `detached` is what the dispatched thunk does after its suspension. -/
structure ForkedRun where
  own : Run
  detached : Run
  deriving DecidableEq, Repr

/-- Lines 123-145. `st` is the store at the call, `woken` the store when the delay
of the dispatched `autoReconnect` has elapsed. -/
def onError (env : Env) (st woken : State) (payload : Payload) : ForkedRun :=
  let shortcut := env.toLowerCase payload.coin.shortcut
  match findNetwork st.networks shortcut with
  | none => ⟨Run.done, Run.done⟩
  | some network =>
    let reconnect := autoReconnect env st woken shortcut
    ⟨Run.after (Event.thunk (Thunk.autoReconnect shortcut) :: reconnect.entry)
       (match network.type with
        | "ethereum" => env.callEthereum (AdapterCall.onError shortcut)
        | "ripple" => Run.done
        | _ => Run.done),
     reconnect.resumed⟩

/-! ## Concrete collaborators used in the examples -/

/-- Lower-casing of the letters `A`-`Z`, on which `toLowerCase` agrees with JavaScript. -/
def asciiLower (s : String) : String :=
  String.mk (s.data.map Char.toLower)

/-- Family module whose promises all resolve. -/
def Adapter.ok : Adapter := ⟨fun _ => Outcome.resolved, fun _ => Outcome.resolved,
  fun _ _ => Outcome.resolved, fun _ => Outcome.resolved⟩

/-- Family module whose `subscribe` rejects. -/
def Adapter.failing : Adapter := ⟨fun _ => Outcome.rejected, fun _ => Outcome.resolved,
  fun _ _ => Outcome.resolved, fun _ => Outcome.resolved⟩

/-- Environment in which every family call resolves. -/
def okEnv : Env := ⟨asciiLower, Adapter.ok, Adapter.ok⟩

/-- Environment in which the Ethereum `subscribe` rejects. -/
def failingEnv : Env := ⟨asciiLower, Adapter.failing, Adapter.ok⟩

/-! ## Observations on traces -/

/-- The names for which `dispatch(subscribe(name))` was called, in call order. -/
def subscribesIssued (tr : List Event) : List String :=
  tr.filterMap (fun e => match e with
    | Event.thunk (Thunk.subscribe n) => some n
    | _ => none)

/-- The shortcuts for which `dispatch(autoReconnect(shortcut))` was called, in order. -/
def reconnectsIssued (tr : List Event) : List String :=
  tr.filterMap (fun e => match e with
    | Event.thunk (Thunk.autoReconnect s) => some s
    | _ => none)

/-- The delays for which a timer was started, in order. -/
def waits (tr : List Event) : List Nat :=
  tr.filterMap (fun e => match e with
    | Event.resolveAfter ms => some ms
    | _ => none)

/-- Whether the event is a call into one of the family modules. -/
def Event.isAdapterCall : Event → Bool
  | Event.ethereum _ => true
  | Event.ripple _ => true
  | _ => false

/-- The effects of issuing `dispatch(subscribe(n))` for each name of `ns`, in order. -/
def issued (env : Env) (st : State) (ns : List String) : List Event :=
  (ns.map (fun n => Event.thunk (Thunk.subscribe n) :: (subscribe env st n).trace)).flatten

/-- Store of the startup scenario: discovery `[btc, eth, eth]`, both networks configured. -/
def startupState : State :=
  ⟨[⟨"btc"⟩, ⟨"eth"⟩, ⟨"eth"⟩], [⟨"btc", "bitcoin"⟩, ⟨"eth", "ethereum"⟩], []⟩

/-- Store in which both discovered networks are configured, one per family. -/
def twoFamilyState : State :=
  ⟨[⟨"eth"⟩, ⟨"xrp"⟩], [⟨"eth", "ethereum"⟩, ⟨"xrp", "ripple"⟩], []⟩

/-- Store whose only connection record has the given flags and attempt count. -/
def recordState (connected connecting : Bool) (attempts : Nat) : State :=
  ⟨[], [⟨"eth", "ethereum"⟩], [⟨"eth", connected, connecting, attempts⟩]⟩

/-- The shortcut is a key of the connection records: at most one record per shortcut. -/
def KeyedByShortcut (blockchain : List Blockchain) : Prop :=
  ∀ b ∈ blockchain, ∀ c ∈ blockchain, b.shortcut = c.shortcut → b = c

/-- The plain actions sent to the store, in order. -/
def actions (tr : List Event) : List BlockchainAction :=
  tr.filterMap (fun e => match e with
    | Event.action a => some a
    | _ => none)

/-- The calls made into the family modules, in order. -/
def adapterCalls (tr : List Event) : List Event :=
  tr.filter Event.isAdapterCall

/-- Store whose configuration spells the shortcut in upper case. -/
def upperCaseState : State :=
  ⟨[], [⟨"ETH", "ethereum"⟩], [⟨"ETH", false, false, 0⟩]⟩

/-! ## Helper lemmas -/

theorem indexOf_neg_iff (l : List String) (a : String) : indexOf l a < 0 ↔ a ∉ l := by
  induction l with
  | nil => simp [indexOf]
  | cons x xs ih =>
    by_cases hx : x = a
    · simp [indexOf, hx]
    · have hne : ¬ a = x := fun h => hx h.symm
      simp only [indexOf, hx, if_false, List.mem_cons, hne, false_or]
      rw [← ih]
      by_cases hi : indexOf xs a < 0
      · simp [hi]
      · simp only [hi, if_false, iff_false, not_lt]
        omega

theorem uniqueNetworks_snoc (ds : List Discovery) (d : Discovery) :
    uniqueNetworks (ds ++ [d]) =
      if d.network ∈ uniqueNetworks ds then uniqueNetworks ds
      else uniqueNetworks ds ++ [d.network] := by
  unfold uniqueNetworks
  rw [List.foldl_append]
  simp only [List.foldl_cons, List.foldl_nil, indexOf_neg_iff]
  split <;> simp_all

theorem mem_uniqueNetworks (ds : List Discovery) :
    ∀ n : String, n ∈ uniqueNetworks ds ↔ n ∈ ds.map Discovery.network := by
  induction ds using List.reverseRecOn with
  | nil => simp [uniqueNetworks]
  | append_singleton ds d ih =>
    intro n
    rw [uniqueNetworks_snoc]
    by_cases h : d.network ∈ uniqueNetworks ds
    · simp only [h, if_true, List.map_append, List.mem_append, List.map_cons, List.map_nil,
        List.mem_singleton, ih n]
      constructor
      · exact Or.inl
      · rintro (h1 | h1)
        · exact h1
        · rw [h1]; exact (ih _).mp h
    · simp [h, ih n]

theorem nodup_uniqueNetworks (ds : List Discovery) : (uniqueNetworks ds).Nodup := by
  induction ds using List.reverseRecOn with
  | nil => simp [uniqueNetworks]
  | append_singleton ds d ih =>
    rw [uniqueNetworks_snoc]
    by_cases h : d.network ∈ uniqueNetworks ds
    · simpa [h] using ih
    · simp only [h, if_false]
      exact List.Nodup.append ih (List.nodup_singleton _) (by simpa using h)

theorem firstOccurrence_uniqueNetworks (ds : List Discovery) :
    (uniqueNetworks ds).Pairwise
      (fun a b => (ds.map Discovery.network).indexOf a < (ds.map Discovery.network).indexOf b) := by
  induction ds using List.reverseRecOn with
  | nil => simp [uniqueNetworks]
  | append_singleton ds d ih =>
    have hold : (uniqueNetworks ds).Pairwise (fun a b =>
        ((ds ++ [d]).map Discovery.network).indexOf a
          < ((ds ++ [d]).map Discovery.network).indexOf b) := by
      refine List.Pairwise.imp_of_mem ?_ ih
      intro a b ha hb hab
      rw [List.map_append, List.indexOf_append_of_mem ((mem_uniqueNetworks ds a).mp ha),
        List.indexOf_append_of_mem ((mem_uniqueNetworks ds b).mp hb)]
      exact hab
    rw [uniqueNetworks_snoc]
    by_cases h : d.network ∈ uniqueNetworks ds
    · simpa [h] using hold
    · simp only [h, if_false]
      rw [List.pairwise_append]
      refine ⟨hold, List.pairwise_singleton _ _, ?_⟩
      intro a ha b hb
      rw [List.mem_singleton] at hb
      subst hb
      have ha' := (mem_uniqueNetworks ds a).mp ha
      have hd : d.network ∉ ds.map Discovery.network := fun hm => h ((mem_uniqueNetworks ds _).mpr hm)
      rw [List.map_append, List.indexOf_append_of_mem ha', List.indexOf_append_of_not_mem hd]
      have := List.indexOf_lt_length.mpr ha'
      omega

theorem mem_subscribe_trace (env : Env) (st : State) (n : String) (e : Event)
    (he : e ∈ (subscribe env st n).trace) :
    (∃ s, e = Event.action (BlockchainAction.START_SUBSCRIBE s))
      ∨ e = Event.ethereum (AdapterCall.subscribe n) ∨ e = Event.ripple (AdapterCall.subscribe n) := by
  unfold subscribe at he
  split at he
  · simp [Run.done] at he
  · rename_i network _
    simp only [Run.after, List.singleton_append, List.mem_cons] at he
    rcases he with he | he
    · exact Or.inl ⟨_, he⟩
    · split at he
      · simp [Env.callEthereum] at he; exact Or.inr (Or.inl he)
      · simp [Env.callRipple] at he; exact Or.inr (Or.inr he)
      · simp [Run.done] at he

theorem subscribesIssued_subscribe (env : Env) (st : State) (n : String) :
    subscribesIssued (subscribe env st n).trace = [] := by
  unfold subscribesIssued
  rw [List.filterMap_eq_nil_iff]
  intro e he
  rcases mem_subscribe_trace env st n e he with ⟨s, rfl⟩ | rfl | rfl <;> rfl

theorem waits_subscribe (env : Env) (st : State) (n : String) :
    waits (subscribe env st n).trace = [] := by
  unfold waits
  rw [List.filterMap_eq_nil_iff]
  intro e he
  rcases mem_subscribe_trace env st n e he with ⟨s, rfl⟩ | rfl | rfl <;> rfl

theorem ready_not_mem_subscribe (env : Env) (st : State) (n : String) :
    Event.action BlockchainAction.READY ∉ (subscribe env st n).trace := by
  intro he
  rcases mem_subscribe_trace env st n _ he with ⟨s, h⟩ | h | h <;> simp at h

theorem subscribesIssued_issued (env : Env) (st : State) (ns : List String) :
    subscribesIssued (issued env st ns) = ns := by
  induction ns with
  | nil => rfl
  | cons n ns ih =>
    have hcons : issued env st (n :: ns)
        = Event.thunk (Thunk.subscribe n) :: ((subscribe env st n).trace ++ issued env st ns) := by
      simp [issued]
    have happ : ∀ a b : List Event,
        subscribesIssued (a ++ b) = subscribesIssued a ++ subscribesIssued b := by
      intro a b; simp [subscribesIssued, List.filterMap_append]
    have hhead : ∀ t : List Event,
        subscribesIssued (Event.thunk (Thunk.subscribe n) :: t) = n :: subscribesIssued t := by
      intro t; simp [subscribesIssued, List.filterMap_cons]
    rw [hcons, hhead, happ, subscribesIssued_subscribe, ih, List.nil_append]

theorem ready_not_mem_issued (env : Env) (st : State) (ns : List String) :
    Event.action BlockchainAction.READY ∉ issued env st ns := by
  induction ns with
  | nil => simp [issued]
  | cons n ns ih =>
    have hcons : issued env st (n :: ns)
        = Event.thunk (Thunk.subscribe n) :: ((subscribe env st n).trace ++ issued env st ns) := by
      simp [issued]
    rw [hcons]
    simp only [List.mem_cons, List.mem_append, not_or]
    exact ⟨by simp, ready_not_mem_subscribe env st n, ih⟩

/-- The trace and settlement of `init`, with the `await` made explicit. -/
theorem init_eq (env : Env) (st : State) :
    init env st =
      if ∀ n ∈ uniqueNetworks st.discovery, (subscribe env st n).outcome = Outcome.resolved then
        ⟨issued env st (uniqueNetworks st.discovery) ++ [Event.action BlockchainAction.READY],
          Outcome.resolved⟩
      else ⟨issued env st (uniqueNetworks st.discovery), Outcome.rejected⟩ := by
  unfold init
  by_cases hlen : st.discovery.length > 0
  · simp only [hlen, if_true, promiseAll, Run.andThen, List.map_map, List.all_map, issued]
    simp only [Function.comp_def, dispatchThunk, List.all_eq_true, decide_eq_true_eq]
    by_cases hall : ∀ n ∈ uniqueNetworks st.discovery,
        (subscribe env st n).outcome = Outcome.resolved
    · have h : ∀ x ∈ List.map (fun n => (⟨Event.thunk (Thunk.subscribe n) :: (subscribe env st n).trace,
          (subscribe env st n).outcome⟩ : Run)) (uniqueNetworks st.discovery),
          x.outcome = Outcome.resolved := by simpa using hall
      rw [if_pos h, if_pos hall]
    · have h : ¬ ∀ x ∈ List.map (fun n => (⟨Event.thunk (Thunk.subscribe n) :: (subscribe env st n).trace,
          (subscribe env st n).outcome⟩ : Run)) (uniqueNetworks st.discovery),
          x.outcome = Outcome.resolved := by simpa using hall
      rw [if_neg h, if_neg hall]
  · have hnil : st.discovery = [] := by
      cases hd : st.discovery with
      | nil => rfl
      | cons a l => simp [hd] at hlen
    simp [hnil, uniqueNetworks, issued, Run.andThen, Run.done]

/-! ## Startup: `init` -/

/-- C1, as stated, fails: on the discovery list `[btc, eth, eth]` with the Ethereum
`subscribe` rejecting, `btc` and `eth` are subscribed once each, in that order, but
`READY` is never dispatched. -/
theorem init_startup_scenario_without_ready :
    subscribesIssued (init failingEnv startupState).trace = ["btc", "eth"]
    ∧ (init failingEnv startupState).trace
        = [Event.thunk (Thunk.subscribe "btc"),
           Event.action (BlockchainAction.START_SUBSCRIBE "btc"),
           Event.thunk (Thunk.subscribe "eth"),
           Event.action (BlockchainAction.START_SUBSCRIBE "eth"),
           Event.ethereum (AdapterCall.subscribe "eth")]
    ∧ (init failingEnv startupState).trace.count (Event.action BlockchainAction.READY) = 0 := by
  decide

/-- C1, amended. For every discovery list, `init` calls `dispatch(subscribe(n))` exactly
once for each distinct `network` value, in order of first occurrence: the list of
subscribed names has no duplicates, has the same members as the discovery networks, has
as many entries as there are distinct networks, and is ordered by first index. `READY`
is dispatched exactly once if and only if every one of these subscribes resolves; it is
then the last effect, after all of them, and `init` resolves. When one of them rejects,
the trace is the subscribes alone, `READY` is not dispatched and `init` rejects. With an
empty discovery list `READY` is the only effect. -/
theorem init_subscribes_distinct_ready_iff_resolved (env : Env) (st : State) :
    (subscribesIssued (init env st).trace).Nodup
    ∧ (∀ n, n ∈ subscribesIssued (init env st).trace ↔ n ∈ st.discovery.map Discovery.network)
    ∧ (subscribesIssued (init env st).trace).length
        = (st.discovery.map Discovery.network).toFinset.card
    ∧ (subscribesIssued (init env st).trace).Pairwise (fun a b =>
        (st.discovery.map Discovery.network).indexOf a
          < (st.discovery.map Discovery.network).indexOf b)
    ∧ ((init env st).trace.count (Event.action BlockchainAction.READY) = 1 ↔
        ∀ n ∈ subscribesIssued (init env st).trace,
          (subscribe env st n).outcome = Outcome.resolved)
    ∧ ((∀ n ∈ subscribesIssued (init env st).trace,
          (subscribe env st n).outcome = Outcome.resolved) →
        (init env st).trace
            = issued env st (subscribesIssued (init env st).trace)
              ++ [Event.action BlockchainAction.READY]
          ∧ (init env st).outcome = Outcome.resolved)
    ∧ (¬ (∀ n ∈ subscribesIssued (init env st).trace,
          (subscribe env st n).outcome = Outcome.resolved) →
        (init env st).trace = issued env st (subscribesIssued (init env st).trace)
          ∧ (init env st).trace.count (Event.action BlockchainAction.READY) = 0
          ∧ (init env st).outcome = Outcome.rejected)
    ∧ (st.discovery = [] →
        init env st = ⟨[Event.action BlockchainAction.READY], Outcome.resolved⟩) := by
  have hsubs : subscribesIssued (init env st).trace = uniqueNetworks st.discovery := by
    have happ : ∀ a b : List Event,
        subscribesIssued (a ++ b) = subscribesIssued a ++ subscribesIssued b := by
      intro a b; simp [subscribesIssued, List.filterMap_append]
    rw [init_eq]
    split
    · rw [happ, subscribesIssued_issued]; simp [subscribesIssued]
    · exact subscribesIssued_issued env st _
  have hzero : (issued env st (uniqueNetworks st.discovery)).count
      (Event.action BlockchainAction.READY) = 0 :=
    List.count_eq_zero_of_not_mem (ready_not_mem_issued env st _)
  rw [hsubs]
  refine ⟨nodup_uniqueNetworks _, mem_uniqueNetworks _, ?_, firstOccurrence_uniqueNetworks _,
    ?_, ?_, ?_, ?_⟩
  · rw [← List.toFinset_card_of_nodup (nodup_uniqueNetworks st.discovery)]
    congr 1
    ext n
    simp only [List.mem_toFinset]
    exact mem_uniqueNetworks _ n
  · by_cases hall : ∀ n ∈ uniqueNetworks st.discovery,
        (subscribe env st n).outcome = Outcome.resolved
    · rw [init_eq, if_pos hall, List.count_append, hzero]
      exact ⟨fun _ => hall, fun _ => by simp⟩
    · rw [init_eq, if_neg hall, hzero]
      exact ⟨fun h => absurd h (by decide), fun h => absurd h hall⟩
  · intro hall
    rw [init_eq, if_pos hall]
    exact ⟨rfl, rfl⟩
  · intro hall
    rw [init_eq, if_neg hall]
    exact ⟨rfl, hzero, rfl⟩
  · intro hnil
    rw [init_eq, hnil]
    simp [uniqueNetworks, issued]

/-- Witness for the amended C1 on the scenario `[btc, eth, eth]` with resolving
subscribes: subscribes for `btc` and `eth`, then `READY`, once. -/
theorem init_subscribes_distinct_ready_iff_resolved_witness :
    subscribesIssued (init okEnv startupState).trace = ["btc", "eth"]
    ∧ (init okEnv startupState).trace.count (Event.action BlockchainAction.READY) = 1
    ∧ (init okEnv startupState).trace
        = issued okEnv startupState (subscribesIssued (init okEnv startupState).trace)
          ++ [Event.action BlockchainAction.READY]
    ∧ (init okEnv startupState).outcome = Outcome.resolved :=
  ⟨by decide,
   (init_subscribes_distinct_ready_iff_resolved okEnv startupState).2.2.2.2.1.mpr (by decide),
   (init_subscribes_distinct_ready_iff_resolved okEnv startupState).2.2.2.2.2.1 (by decide)⟩

/-- C2, as stated, fails: with `eth` and `xrp` discovered and the Ethereum `subscribe`
rejecting, both subscribes are issued, but `READY` is not dispatched and `init` rejects. -/
theorem init_ready_suppressed_by_rejection :
    (subscribe failingEnv twoFamilyState "eth").outcome = Outcome.rejected
    ∧ subscribesIssued (init failingEnv twoFamilyState).trace = ["eth", "xrp"]
    ∧ (init failingEnv twoFamilyState).trace.count (Event.action BlockchainAction.READY) = 0
    ∧ (init failingEnv twoFamilyState).outcome = Outcome.rejected := by
  decide

/-- C2, amended. When one of the subscribes issued by `init` rejects, every subscribe has
still been issued (all calls are made before the results are awaited), and `init` itself
rejects without dispatching `READY`. -/
theorem init_rejects_when_subscribe_rejects (env : Env) (st : State) (n : String)
    (hn : n ∈ uniqueNetworks st.discovery)
    (hrej : (subscribe env st n).outcome = Outcome.rejected) :
    subscribesIssued (init env st).trace = uniqueNetworks st.discovery
    ∧ (init env st).trace = issued env st (uniqueNetworks st.discovery)
    ∧ Event.action BlockchainAction.READY ∉ (init env st).trace
    ∧ (init env st).outcome = Outcome.rejected := by
  have hall : ¬ ∀ m ∈ uniqueNetworks st.discovery,
      (subscribe env st m).outcome = Outcome.resolved := by
    intro h
    have := h n hn
    rw [hrej] at this
    exact absurd this (by decide)
  rw [init_eq, if_neg hall]
  exact ⟨subscribesIssued_issued env st _, rfl, ready_not_mem_issued env st _, rfl⟩

/-- Witness for the amended C2 on the two-family store with a rejecting Ethereum module. -/
theorem init_rejects_when_subscribe_rejects_witness :
    subscribesIssued (init failingEnv twoFamilyState).trace = uniqueNetworks twoFamilyState.discovery
    ∧ (init failingEnv twoFamilyState).trace
        = issued failingEnv twoFamilyState (uniqueNetworks twoFamilyState.discovery)
    ∧ Event.action BlockchainAction.READY ∉ (init failingEnv twoFamilyState).trace
    ∧ (init failingEnv twoFamilyState).outcome = Outcome.rejected :=
  init_rejects_when_subscribe_rejects failingEnv twoFamilyState "eth" (by decide) (by decide)

/-! ## Reconnection: `autoReconnect` -/

theorem findBlockchain_eq_none_iff (l : List Blockchain) (s : String) :
    findBlockchain l s = none ↔ ∀ b ∈ l, b.shortcut ≠ s := by
  simp [findBlockchain, List.find?_eq_none]

theorem findBlockchain_some (l : List Blockchain) (s : String) (b : Blockchain)
    (h : findBlockchain l s = some b) : b ∈ l ∧ b.shortcut = s := by
  unfold findBlockchain at h
  exact ⟨List.mem_of_find?_eq_some h, by simpa using List.find?_some h⟩

/-- C3. `autoReconnect(s)` aborts at once, with no delay, no dispatch and no subscribe,
when the list holds no record with shortcut `s` or the record found has
`reconnectionAttempts >= 5`; in every other case it starts the delay. -/
theorem autoReconnect_entry_check (env : Env) (st woken : State) (s : String) :
    (((∀ b ∈ st.blockchain, b.shortcut ≠ s)
        ∨ ∃ b, findBlockchain st.blockchain s = some b ∧ 5 ≤ b.reconnectionAttempts) →
      autoReconnect env st woken s = ⟨[], Run.done⟩)
    ∧ (¬ ((∀ b ∈ st.blockchain, b.shortcut ≠ s)
        ∨ ∃ b, findBlockchain st.blockchain s = some b ∧ 5 ≤ b.reconnectionAttempts) →
      ∃ b, findBlockchain st.blockchain s = some b
        ∧ (autoReconnect env st woken s).entry
            = [Event.resolveAfter (5000 * (b.reconnectionAttempts + 1))]) := by
  constructor
  · rintro (hnone | ⟨b, hb, h5⟩)
    · have := (findBlockchain_eq_none_iff _ _).mpr hnone
      simp [autoReconnect, this]
    · simp [autoReconnect, hb, h5]
  · intro h
    rw [not_or, ← findBlockchain_eq_none_iff] at h
    cases hf : findBlockchain st.blockchain s with
    | none => exact absurd hf h.1
    | some b =>
      have h5 : ¬ 5 ≤ b.reconnectionAttempts := fun h5 => h.2 ⟨b, hf, h5⟩
      exact ⟨b, rfl, by simp [autoReconnect, hf, h5]⟩

/-- Witness for C3: no record, five attempts, and four attempts. -/
theorem autoReconnect_entry_check_witness :
    autoReconnect okEnv twoFamilyState twoFamilyState "eth" = ⟨[], Run.done⟩
    ∧ autoReconnect okEnv (recordState false false 5) (recordState false false 5) "eth"
        = ⟨[], Run.done⟩
    ∧ ∃ b, findBlockchain (recordState false false 4).blockchain "eth" = some b
        ∧ (autoReconnect okEnv (recordState false false 4) (recordState false false 4) "eth").entry
            = [Event.resolveAfter (5000 * (b.reconnectionAttempts + 1))] :=
  ⟨(autoReconnect_entry_check okEnv twoFamilyState twoFamilyState "eth").1
      (Or.inl (by decide)),
   (autoReconnect_entry_check okEnv (recordState false false 5) (recordState false false 5) "eth").1
      (Or.inr ⟨⟨"eth", false, false, 5⟩, by decide, by decide⟩),
   (autoReconnect_entry_check okEnv (recordState false false 4) (recordState false false 4) "eth").2
      (by
        rintro (h | ⟨b, hb, h5⟩)
        · exact h ⟨"eth", false, false, 4⟩ (by decide) rfl
        · have hb' : b = ⟨"eth", false, false, 4⟩ := by
            have : findBlockchain (recordState false false 4).blockchain "eth"
                = some ⟨"eth", false, false, 4⟩ := by decide
            rw [this] at hb
            exact (Option.some.inj hb).symm
          subst hb'
          exact absurd h5 (by decide))⟩

theorem autoReconnect_waits (env : Env) (st woken : State) (s : String) :
    waits ((autoReconnect env st woken s).entry ++ (autoReconnect env st woken s).resumed.trace)
      = waits (autoReconnect env st woken s).entry := by
  have happ : ∀ a b : List Event, waits (a ++ b) = waits a ++ waits b := by
    intro a b; simp [waits, List.filterMap_append]
  have hthunk : ∀ (t : Thunk) (l : List Event), waits (Event.thunk t :: l) = waits l := by
    intro t l; simp [waits, List.filterMap_cons]
  rw [happ]
  suffices h : waits (autoReconnect env st woken s).resumed.trace = [] by rw [h, List.append_nil]
  unfold autoReconnect
  split
  · rfl
  · split
    · rfl
    · dsimp only
      split
      · rfl
      · split
        · rfl
        · simp only [dispatchThunk, hthunk, waits_subscribe]

/-- C5. Whenever `autoReconnect` waits, the delay is `5000 * (a + 1)`, where `a` is the
`reconnectionAttempts` read before the wait; the attempt number `k = a + 1` lies between
1 and 5 and no wait exceeds 25000. The `k`-th attempt waits exactly `5000 * k`: 5000 for
`k = 1`, 25000 for `k = 5`, and the delay grows strictly with the attempt count. -/
theorem autoReconnect_delay (env : Env) (st woken : State) (s : String) :
    (∀ ms ∈ waits ((autoReconnect env st woken s).entry
          ++ (autoReconnect env st woken s).resumed.trace),
        ∃ b, findBlockchain st.blockchain s = some b
          ∧ ms = 5000 * (b.reconnectionAttempts + 1)
          ∧ 1 ≤ b.reconnectionAttempts + 1 ∧ b.reconnectionAttempts + 1 ≤ 5 ∧ ms ≤ 25000)
    ∧ (∀ b k, findBlockchain st.blockchain s = some b → b.reconnectionAttempts + 1 = k → k ≤ 5 →
        waits ((autoReconnect env st woken s).entry
          ++ (autoReconnect env st woken s).resumed.trace) = [5000 * k])
    ∧ (∀ b, findBlockchain st.blockchain s = some b → b.reconnectionAttempts = 0 →
        (autoReconnect env st woken s).entry = [Event.resolveAfter 5000])
    ∧ (∀ b, findBlockchain st.blockchain s = some b → b.reconnectionAttempts = 4 →
        (autoReconnect env st woken s).entry = [Event.resolveAfter 25000])
    ∧ (∀ (st2 woken2 : State) (b b2 : Blockchain) (ms ms2 : Nat),
        findBlockchain st.blockchain s = some b → findBlockchain st2.blockchain s = some b2 →
        b.reconnectionAttempts < b2.reconnectionAttempts →
        ms ∈ waits (autoReconnect env st woken s).entry →
        ms2 ∈ waits (autoReconnect env st2 woken2 s).entry → ms < ms2) := by
  have key : ∀ (st woken : State) (b : Blockchain), findBlockchain st.blockchain s = some b →
      waits (autoReconnect env st woken s).entry
        = if 5 ≤ b.reconnectionAttempts then [] else [5000 * (b.reconnectionAttempts + 1)] := by
    intro st woken b hb
    by_cases h5 : 5 ≤ b.reconnectionAttempts
    · simp [autoReconnect, hb, h5, waits]
    · simp [autoReconnect, hb, h5, waits]
  refine ⟨?_, ?_, ?_, ?_, ?_⟩
  · intro ms hms
    rw [autoReconnect_waits] at hms
    cases hf : findBlockchain st.blockchain s with
    | none => simp [autoReconnect, hf, waits] at hms
    | some b =>
      rw [key st woken b hf] at hms
      by_cases h5 : 5 ≤ b.reconnectionAttempts
      · simp [h5] at hms
      · simp only [h5, if_false, List.mem_singleton] at hms
        exact ⟨b, rfl, hms, by omega, by omega, by omega⟩
  · intro b k hb hk h5
    have h5' : ¬ 5 ≤ b.reconnectionAttempts := by omega
    rw [autoReconnect_waits, key st woken b hb, if_neg h5', hk]
  · intro b hb h0
    simp [autoReconnect, hb, h0]
  · intro b hb h4
    simp [autoReconnect, hb, h4]
  · intro st2 woken2 b b2 ms ms2 hb hb2 hlt hms hms2
    rw [key st woken b hb] at hms
    rw [key st2 woken2 b2 hb2] at hms2
    by_cases h5 : 5 ≤ b.reconnectionAttempts
    · simp [h5] at hms
    · by_cases h52 : 5 ≤ b2.reconnectionAttempts
      · simp [h52] at hms2
      · simp only [h5, h52, if_false, List.mem_singleton] at hms hms2
        omega

/-- Witness for C5: with two attempts made, the third attempt waits 15000. -/
theorem autoReconnect_delay_witness :
    ∃ b, findBlockchain (recordState false false 2).blockchain "eth" = some b
      ∧ 15000 = 5000 * (b.reconnectionAttempts + 1)
      ∧ 1 ≤ b.reconnectionAttempts + 1 ∧ b.reconnectionAttempts + 1 ≤ 5 ∧ 15000 ≤ 25000 :=
  (autoReconnect_delay okEnv (recordState false false 2) (recordState false false 2) "eth").1
    15000 (by decide)

/-- C6. Once the delay of `autoReconnect(s)` has elapsed the records are read again, and
`subscribe(s)` is dispatched, exactly once, if and only if the record found for `s` in
that second read has `connected = false` and `connecting = false`; otherwise the retry
ends with no effect at all. This holds for every store read before the wait. With the
shortcut a key of the records, the record found is any record for `s`. -/
theorem autoReconnect_recheck (env : Env) (st woken : State) (s : String) (ms : Nat)
    (hwait : (autoReconnect env st woken s).entry = [Event.resolveAfter ms]) :
    (subscribesIssued (autoReconnect env st woken s).resumed.trace = [s] ↔
        ∃ b, findBlockchain woken.blockchain s = some b
          ∧ b.connected = false ∧ b.connecting = false)
    ∧ ((∃ b, findBlockchain woken.blockchain s = some b
          ∧ b.connected = false ∧ b.connecting = false) →
        (autoReconnect env st woken s).resumed
          = dispatchThunk (Thunk.subscribe s) (subscribe env woken s))
    ∧ (¬ (∃ b, findBlockchain woken.blockchain s = some b
          ∧ b.connected = false ∧ b.connecting = false) →
        (autoReconnect env st woken s).resumed = Run.done)
    ∧ (KeyedByShortcut woken.blockchain →
        ((∃ b, findBlockchain woken.blockchain s = some b
            ∧ b.connected = false ∧ b.connecting = false)
          ↔ ∃ b ∈ woken.blockchain, b.shortcut = s ∧ b.connected = false ∧ b.connecting = false)) := by
  have hres : (autoReconnect env st woken s).resumed =
      match findBlockchain woken.blockchain s with
      | none => Run.done
      | some b => if b.connected || b.connecting then Run.done
                  else dispatchThunk (Thunk.subscribe s) (subscribe env woken s) := by
    unfold autoReconnect at hwait ⊢
    split at hwait
    · simp at hwait
    · split at hwait
      · simp at hwait
      · rename_i h5
        simp only [h5, if_false]
  have hissued : subscribesIssued (dispatchThunk (Thunk.subscribe s) (subscribe env woken s)).trace
      = [s] := by
    have : ∀ t : List Event,
        subscribesIssued (Event.thunk (Thunk.subscribe s) :: t) = s :: subscribesIssued t := by
      intro t; simp [subscribesIssued, List.filterMap_cons]
    simp only [dispatchThunk, this, subscribesIssued_subscribe]
  have hpos : (∃ b, findBlockchain woken.blockchain s = some b
        ∧ b.connected = false ∧ b.connecting = false) →
      (autoReconnect env st woken s).resumed
        = dispatchThunk (Thunk.subscribe s) (subscribe env woken s) := by
    rintro ⟨b, hb, hc, hg⟩
    rw [hres, hb]
    simp [hc, hg]
  have hneg : ¬ (∃ b, findBlockchain woken.blockchain s = some b
        ∧ b.connected = false ∧ b.connecting = false) →
      (autoReconnect env st woken s).resumed = Run.done := by
    intro h
    rw [hres]
    cases hf : findBlockchain woken.blockchain s with
    | none => rfl
    | some b =>
      have : (b.connected || b.connecting) = true := by
        by_contra hcon
        simp only [Bool.or_eq_true, not_or, Bool.not_eq_true] at hcon
        exact h ⟨b, hf, hcon.1, hcon.2⟩
      simp [this]
  refine ⟨?_, hpos, hneg, ?_⟩
  · constructor
    · intro h
      by_contra hno
      rw [hneg hno] at h
      simp [Run.done, subscribesIssued] at h
    · intro h
      rw [hpos h, hissued]
  · intro hkey
    constructor
    · rintro ⟨b, hb, hc, hg⟩
      exact ⟨b, (findBlockchain_some _ _ _ hb).1, (findBlockchain_some _ _ _ hb).2, hc, hg⟩
    · rintro ⟨b, hmem, hs, hc, hg⟩
      cases hf : findBlockchain woken.blockchain s with
      | none => exact absurd hs ((findBlockchain_eq_none_iff _ _).mp hf b hmem)
      | some c =>
        have hc' := findBlockchain_some _ _ _ hf
        have : c = b := hkey c hc'.1 b hmem (by rw [hc'.2, hs])
        subst this
        exact ⟨c, rfl, hc, hg⟩

/-- Witness for C6: a record that became connected during the wait ends the retry
without a subscribe, although it was disconnected before the wait. -/
theorem autoReconnect_recheck_witness :
    (autoReconnect okEnv (recordState false false 0) (recordState true false 0) "eth").entry
        = [Event.resolveAfter 5000]
    ∧ (autoReconnect okEnv (recordState false false 0) (recordState true false 0) "eth").resumed
        = Run.done :=
  ⟨by decide,
   (autoReconnect_recheck okEnv (recordState false false 0) (recordState true false 0) "eth" 5000
      (by decide)).2.2.1 (by decide)⟩

/-! ## Subscription: `subscribe` -/

theorem findNetwork_eq_none_iff (l : List Network) (n : String) :
    findNetwork l n = none ↔ ∀ c ∈ l, c.shortcut ≠ n := by
  simp [findNetwork, List.find?_eq_none]

theorem findNetwork_some (l : List Network) (n : String) (c : Network)
    (h : findNetwork l n = some c) : c ∈ l ∧ c.shortcut = n := by
  unfold findNetwork at h
  exact ⟨List.mem_of_find?_eq_some h, by simpa using List.find?_some h⟩

theorem findNetwork_of_mem (l : List Network) (n : String) (c : Network)
    (hc : c ∈ l) (hn : c.shortcut = n) :
    ∃ network, findNetwork l n = some network ∧ network ∈ l ∧ network.shortcut = n := by
  cases hf : findNetwork l n with
  | none => exact absurd hn ((findNetwork_eq_none_iff l n).mp hf c hc)
  | some network => exact ⟨network, rfl, findNetwork_some l n network hf⟩

/-- C7. A configuration miss is silent. For a name that matches no configured shortcut,
`subscribe` has no effect: no `START_SUBSCRIBE`, no family call. For a payload whose
lower-cased coin shortcut matches no configured shortcut, `onBlockMined`,
`onNotification` and `onError` have no effect: nothing dispatched, no family call, and
`autoReconnect` is not dispatched. -/
theorem unconfigured_is_silent (env : Env) (st woken : State) :
    (∀ n, (∀ c ∈ st.networks, c.shortcut ≠ n) → subscribe env st n = ⟨[], Outcome.resolved⟩)
    ∧ (∀ payload : Payload,
        (∀ c ∈ st.networks, c.shortcut ≠ env.toLowerCase payload.coin.shortcut) →
          onBlockMined env st payload = ⟨[], Outcome.resolved⟩
          ∧ onNotification env st payload = ⟨[], Outcome.resolved⟩
          ∧ onError env st woken payload = ⟨⟨[], Outcome.resolved⟩, ⟨[], Outcome.resolved⟩⟩) := by
  constructor
  · intro n hn
    have := (findNetwork_eq_none_iff _ _).mpr hn
    simp [subscribe, this, Run.done]
  · intro payload hp
    have := (findNetwork_eq_none_iff _ _).mpr hp
    simp [onBlockMined, onNotification, onError, this, Run.done]

/-- Witness for C7: `ltc` is not configured in the two-family store. -/
theorem unconfigured_is_silent_witness :
    subscribe okEnv twoFamilyState "ltc" = ⟨[], Outcome.resolved⟩
    ∧ onBlockMined okEnv twoFamilyState ⟨⟨"LTC"⟩⟩ = ⟨[], Outcome.resolved⟩
    ∧ onNotification okEnv twoFamilyState ⟨⟨"LTC"⟩⟩ = ⟨[], Outcome.resolved⟩
    ∧ onError okEnv twoFamilyState twoFamilyState ⟨⟨"LTC"⟩⟩
        = ⟨⟨[], Outcome.resolved⟩, ⟨[], Outcome.resolved⟩⟩ :=
  ⟨(unconfigured_is_silent okEnv twoFamilyState twoFamilyState).1 "ltc" (by decide),
   (unconfigured_is_silent okEnv twoFamilyState twoFamilyState).2 ⟨⟨"LTC"⟩⟩ (by decide)⟩

/-- C8. For a name `n` that matches a configured network, `subscribe(n)` first dispatches
exactly one `START_SUBSCRIBE`, whose shortcut is the configured network's shortcut, equal
to `n`, and then calls the family module selected by the network's `type`: the Ethereum
`subscribe(n)` for `ethereum`, the Ripple `subscribe(n)` for `ripple`, and none for any
other type, in which case `START_SUBSCRIBE` is the only effect and the call resolves. -/
theorem subscribe_configured (env : Env) (st : State) (n : String) (c : Network)
    (hc : c ∈ st.networks) (hn : c.shortcut = n) :
    ∃ network, findNetwork st.networks n = some network ∧ network ∈ st.networks
      ∧ network.shortcut = n
      ∧ (subscribe env st n).trace.head?
          = some (Event.action (BlockchainAction.START_SUBSCRIBE network.shortcut))
      ∧ actions (subscribe env st n).trace = [BlockchainAction.START_SUBSCRIBE n]
      ∧ (network.type = "ethereum" →
          subscribe env st n
            = ⟨[Event.action (BlockchainAction.START_SUBSCRIBE n),
                Event.ethereum (AdapterCall.subscribe n)], env.ethereum.subscribe n⟩)
      ∧ (network.type = "ripple" →
          subscribe env st n
            = ⟨[Event.action (BlockchainAction.START_SUBSCRIBE n),
                Event.ripple (AdapterCall.subscribe n)], env.ripple.subscribe n⟩)
      ∧ (network.type ≠ "ethereum" → network.type ≠ "ripple" →
          subscribe env st n
            = ⟨[Event.action (BlockchainAction.START_SUBSCRIBE n)], Outcome.resolved⟩) := by
  obtain ⟨network, hf, hmem, hs⟩ := findNetwork_of_mem st.networks n c hc hn
  have he : network.type = "ethereum" →
      subscribe env st n
        = ⟨[Event.action (BlockchainAction.START_SUBSCRIBE n),
            Event.ethereum (AdapterCall.subscribe n)], env.ethereum.subscribe n⟩ := by
    intro ht
    simp [subscribe, hf, ht, hs, Run.after, Env.callEthereum]
  have hr : network.type = "ripple" →
      subscribe env st n
        = ⟨[Event.action (BlockchainAction.START_SUBSCRIBE n),
            Event.ripple (AdapterCall.subscribe n)], env.ripple.subscribe n⟩ := by
    intro ht
    simp [subscribe, hf, ht, hs, Run.after, Env.callRipple]
  have ho : network.type ≠ "ethereum" → network.type ≠ "ripple" →
      subscribe env st n
        = ⟨[Event.action (BlockchainAction.START_SUBSCRIBE n)], Outcome.resolved⟩ := by
    intro h1 h2
    simp only [subscribe, hf, hs, Run.after]
    simp [Run.done]
  refine ⟨network, hf, hmem, hs, ?_, ?_, he, hr, ho⟩
  · simp [subscribe, hf, Run.after]
  · by_cases h1 : network.type = "ethereum"
    · rw [he h1]; simp [actions]
    · by_cases h2 : network.type = "ripple"
      · rw [hr h2]; simp [actions]
      · rw [ho h1 h2]; simp [actions]

/-- Witness for C8: `eth` is configured with type `ethereum` in the two-family store. -/
theorem subscribe_configured_witness :
    ∃ network, findNetwork twoFamilyState.networks "eth" = some network
      ∧ network ∈ twoFamilyState.networks
      ∧ network.shortcut = "eth"
      ∧ (subscribe okEnv twoFamilyState "eth").trace.head?
          = some (Event.action (BlockchainAction.START_SUBSCRIBE network.shortcut))
      ∧ actions (subscribe okEnv twoFamilyState "eth").trace
          = [BlockchainAction.START_SUBSCRIBE "eth"]
      ∧ (network.type = "ethereum" →
          subscribe okEnv twoFamilyState "eth"
            = ⟨[Event.action (BlockchainAction.START_SUBSCRIBE "eth"),
                Event.ethereum (AdapterCall.subscribe "eth")], okEnv.ethereum.subscribe "eth"⟩)
      ∧ (network.type = "ripple" →
          subscribe okEnv twoFamilyState "eth"
            = ⟨[Event.action (BlockchainAction.START_SUBSCRIBE "eth"),
                Event.ripple (AdapterCall.subscribe "eth")], okEnv.ripple.subscribe "eth"⟩)
      ∧ (network.type ≠ "ethereum" → network.type ≠ "ripple" →
          subscribe okEnv twoFamilyState "eth"
            = ⟨[Event.action (BlockchainAction.START_SUBSCRIBE "eth")], Outcome.resolved⟩) :=
  subscribe_configured okEnv twoFamilyState "eth" ⟨"eth", "ethereum"⟩ (by decide) rfl

/-! ## Event routing: `onBlockMined`, `onNotification`, `onError` -/

theorem onError_eq (env : Env) (st woken : State) (payload : Payload) (network : Network)
    (hf : findNetwork st.networks (env.toLowerCase payload.coin.shortcut) = some network) :
    onError env st woken payload =
      ⟨Run.after (Event.thunk (Thunk.autoReconnect (env.toLowerCase payload.coin.shortcut))
          :: (autoReconnect env st woken (env.toLowerCase payload.coin.shortcut)).entry)
        (if network.type = "ethereum" then
          env.callEthereum (AdapterCall.onError (env.toLowerCase payload.coin.shortcut))
         else Run.done),
       (autoReconnect env st woken (env.toLowerCase payload.coin.shortcut)).resumed⟩ := by
  simp only [onError, hf]
  by_cases h1 : network.type = "ethereum"
  · simp [h1]
  · by_cases h2 : network.type = "ripple"
    · simp [h2]
    · simp [h1, h2]

theorem autoReconnect_entry_env (env env2 : Env) (st woken : State) (s : String) :
    (autoReconnect env2 st woken s).entry = (autoReconnect env st woken s).entry := by
  unfold autoReconnect
  split
  · rfl
  · split <;> rfl

theorem subscribe_trace_env (env env2 : Env) (st : State) (n : String) :
    (subscribe env2 st n).trace = (subscribe env st n).trace := by
  unfold subscribe
  split
  · rfl
  · simp only [Run.after]
    split <;> rfl

theorem autoReconnect_resumed_env (env env2 : Env) (st woken : State) (s : String) :
    (autoReconnect env2 st woken s).resumed.trace = (autoReconnect env st woken s).resumed.trace := by
  unfold autoReconnect
  split
  · rfl
  · split
    · rfl
    · dsimp only
      split
      · rfl
      · split
        · rfl
        · simp only [dispatchThunk, subscribe_trace_env env env2]

theorem reconnectsIssued_onError (env : Env) (st woken : State) (payload : Payload)
    (network : Network)
    (hf : findNetwork st.networks (env.toLowerCase payload.coin.shortcut) = some network) :
    reconnectsIssued (onError env st woken payload).own.trace
      = [env.toLowerCase payload.coin.shortcut] := by
  have hentry : reconnectsIssued
      (autoReconnect env st woken (env.toLowerCase payload.coin.shortcut)).entry = [] := by
    unfold autoReconnect
    split
    · rfl
    · split <;> rfl
  have happ : ∀ a b : List Event,
      reconnectsIssued (a ++ b) = reconnectsIssued a ++ reconnectsIssued b := by
    intro a b; simp [reconnectsIssued, List.filterMap_append]
  have hcons : ∀ (s : String) (t : List Event),
      reconnectsIssued (Event.thunk (Thunk.autoReconnect s) :: t) = s :: reconnectsIssued t := by
    intro s t; simp [reconnectsIssued, List.filterMap_cons]
  rw [onError_eq env st woken payload network hf]
  simp only [Run.after, List.cons_append, hcons, happ, hentry, List.nil_append]
  split <;> simp [Env.callEthereum, Run.done, reconnectsIssued]

theorem adapterCalls_entry (env : Env) (st woken : State) (s : String) :
    adapterCalls (autoReconnect env st woken s).entry = [] := by
  unfold autoReconnect
  split
  · rfl
  · split <;> rfl

theorem onError_own_ethereum (env : Env) (st woken : State) (payload : Payload)
    (network : Network)
    (hf : findNetwork st.networks (env.toLowerCase payload.coin.shortcut) = some network)
    (ht : network.type = "ethereum") :
    (onError env st woken payload).own
      = ⟨Event.thunk (Thunk.autoReconnect (env.toLowerCase payload.coin.shortcut))
          :: ((autoReconnect env st woken (env.toLowerCase payload.coin.shortcut)).entry
            ++ [Event.ethereum (AdapterCall.onError (env.toLowerCase payload.coin.shortcut))]),
         env.ethereum.onError (env.toLowerCase payload.coin.shortcut)⟩ := by
  rw [onError_eq env st woken payload network hf]
  simp [Run.after, ht, Env.callEthereum]

/-- C9. For an `onError` payload that resolves to a configured network of any family,
`autoReconnect` is dispatched for the lower-cased shortcut exactly once and before the
family error handler is called: its entry check and the start of its delay come first in
the trace, and neither they nor what the retry does on waking depend on how a family
handler settles. Afterwards the Ethereum `onError(shortcut)` is called for type
`ethereum`; for `ripple` and every other type no family handler is called. -/
theorem onError_configured (env : Env) (st woken : State) (payload : Payload) (network : Network)
    (hf : findNetwork st.networks (env.toLowerCase payload.coin.shortcut) = some network) :
    reconnectsIssued (onError env st woken payload).own.trace
      = [env.toLowerCase payload.coin.shortcut]
    ∧ (network.type = "ethereum" →
        (onError env st woken payload).own
          = ⟨Event.thunk (Thunk.autoReconnect (env.toLowerCase payload.coin.shortcut))
              :: ((autoReconnect env st woken (env.toLowerCase payload.coin.shortcut)).entry
                ++ [Event.ethereum (AdapterCall.onError (env.toLowerCase payload.coin.shortcut))]),
             env.ethereum.onError (env.toLowerCase payload.coin.shortcut)⟩)
    ∧ (network.type ≠ "ethereum" →
        (onError env st woken payload).own
          = ⟨Event.thunk (Thunk.autoReconnect (env.toLowerCase payload.coin.shortcut))
              :: (autoReconnect env st woken (env.toLowerCase payload.coin.shortcut)).entry,
             Outcome.resolved⟩
        ∧ adapterCalls (onError env st woken payload).own.trace = [])
    ∧ (onError env st woken payload).detached
        = (autoReconnect env st woken (env.toLowerCase payload.coin.shortcut)).resumed
    ∧ (∀ env2 : Env, env2.toLowerCase = env.toLowerCase →
        (onError env2 st woken payload).own.trace = (onError env st woken payload).own.trace
        ∧ (onError env2 st woken payload).detached.trace
            = (onError env st woken payload).detached.trace) := by
  refine ⟨?_, ?_, ?_, ?_, ?_⟩
  · exact reconnectsIssued_onError env st woken payload network hf
  · exact onError_own_ethereum env st woken payload network hf
  · intro ht
    rw [onError_eq env st woken payload network hf]
    simp only [Run.after, ht, if_false, Run.done, List.append_nil, true_and]
    have : ∀ (t : Thunk) (l : List Event), adapterCalls (Event.thunk t :: l) = adapterCalls l := by
      intro t l; simp [adapterCalls, Event.isAdapterCall]
    rw [this, adapterCalls_entry]
  · rw [onError_eq env st woken payload network hf]
  · intro env2 hlow
    have hf2 : findNetwork st.networks (env2.toLowerCase payload.coin.shortcut) = some network := by
      rw [hlow]; exact hf
    rw [onError_eq env st woken payload network hf, onError_eq env2 st woken payload network hf2]
    simp only [Run.after, hlow, autoReconnect_entry_env env env2,
      autoReconnect_resumed_env env env2, and_true]
    split <;> rfl

/-- Witness for C9: an error for `ETH` with one attempt already made starts a 10000 delay
before the Ethereum handler is called. -/
theorem onError_configured_witness :
    reconnectsIssued (onError okEnv (recordState false false 1) (recordState false false 1)
        ⟨⟨"ETH"⟩⟩).own.trace = ["eth"]
    ∧ (onError okEnv (recordState false false 1) (recordState false false 1) ⟨⟨"ETH"⟩⟩).own.trace
        = [Event.thunk (Thunk.autoReconnect "eth"), Event.resolveAfter 10000,
           Event.ethereum (AdapterCall.onError "eth")] :=
  ⟨(onError_configured okEnv (recordState false false 1) (recordState false false 1) ⟨⟨"ETH"⟩⟩
      ⟨"eth", "ethereum"⟩ (by decide)).1,
   by decide⟩

/-- C4, as stated, fails: an error for `ETH` with `eth` configured and no connection
record starts no delay; the controller is dispatched, aborts at its entry check, and only
the Ethereum error handler is called. -/
theorem onError_without_record_starts_no_retry :
    findBlockchain twoFamilyState.blockchain "eth" = none
    ∧ (onError okEnv twoFamilyState twoFamilyState ⟨⟨"ETH"⟩⟩).own.trace
        = [Event.thunk (Thunk.autoReconnect "eth"), Event.ethereum (AdapterCall.onError "eth")]
    ∧ waits (onError okEnv twoFamilyState twoFamilyState ⟨⟨"ETH"⟩⟩).own.trace = []
    ∧ (onError okEnv twoFamilyState twoFamilyState ⟨⟨"ETH"⟩⟩).detached = Run.done := by
  decide

/-- C4, amended. For an `onError` payload that resolves to a configured network while the
connection records hold none for its shortcut, `autoReconnect` is dispatched but aborts at
once: no delay is started, no attempt tracking is created, nothing is subscribed; the only
further effect is the Ethereum error handler when the network's type is `ethereum`. -/
theorem onError_without_record_aborts (env : Env) (st woken : State) (payload : Payload)
    (network : Network)
    (hf : findNetwork st.networks (env.toLowerCase payload.coin.shortcut) = some network)
    (hnone : ∀ b ∈ st.blockchain, b.shortcut ≠ env.toLowerCase payload.coin.shortcut) :
    autoReconnect env st woken (env.toLowerCase payload.coin.shortcut) = ⟨[], Run.done⟩
    ∧ waits (onError env st woken payload).own.trace = []
    ∧ (onError env st woken payload).own.trace
        = Event.thunk (Thunk.autoReconnect (env.toLowerCase payload.coin.shortcut))
          :: (if network.type = "ethereum" then
                [Event.ethereum (AdapterCall.onError (env.toLowerCase payload.coin.shortcut))]
              else [])
    ∧ (onError env st woken payload).detached = ⟨[], Outcome.resolved⟩ := by
  have hfb := (findBlockchain_eq_none_iff _ _).mpr hnone
  have hab : autoReconnect env st woken (env.toLowerCase payload.coin.shortcut)
      = ⟨[], Run.done⟩ := by
    simp [autoReconnect, hfb]
  refine ⟨hab, ?_, ?_, ?_⟩
  · rw [onError_eq env st woken payload network hf, hab]
    simp only [Run.after]
    split <;> simp [waits, Env.callEthereum, Run.done]
  · rw [onError_eq env st woken payload network hf, hab]
    simp only [Run.after]
    split <;> simp [Env.callEthereum, Run.done]
  · rw [onError_eq env st woken payload network hf, hab]
    rfl

/-- Witness for the amended C4 on the scenario of the claim. -/
theorem onError_without_record_aborts_witness :
    autoReconnect okEnv twoFamilyState twoFamilyState (okEnv.toLowerCase "ETH") = ⟨[], Run.done⟩
    ∧ waits (onError okEnv twoFamilyState twoFamilyState ⟨⟨"ETH"⟩⟩).own.trace = []
    ∧ (onError okEnv twoFamilyState twoFamilyState ⟨⟨"ETH"⟩⟩).own.trace
        = Event.thunk (Thunk.autoReconnect (okEnv.toLowerCase "ETH"))
          :: (if (⟨"eth", "ethereum"⟩ : Network).type = "ethereum" then
                [Event.ethereum (AdapterCall.onError (okEnv.toLowerCase "ETH"))]
              else [])
    ∧ (onError okEnv twoFamilyState twoFamilyState ⟨⟨"ETH"⟩⟩).detached
        = ⟨[], Outcome.resolved⟩ :=
  onError_without_record_aborts okEnv twoFamilyState twoFamilyState ⟨⟨"ETH"⟩⟩ ⟨"eth", "ethereum"⟩
    (by decide) (by decide)

/-- C10, as stated, fails: with the shortcut configured as `ETH`, the payload `ETH`, equal
to it even before any case folding, reaches no handler: the lookup is made with `eth`. -/
theorem upper_case_config_is_not_matched :
    (⟨"ETH", "ethereum"⟩ : Network) ∈ upperCaseState.networks
    ∧ okEnv.toLowerCase "ETH" = okEnv.toLowerCase (⟨⟨"ETH"⟩⟩ : Payload).coin.shortcut
    ∧ findNetwork upperCaseState.networks (okEnv.toLowerCase "ETH") = none
    ∧ onBlockMined okEnv upperCaseState ⟨⟨"ETH"⟩⟩ = ⟨[], Outcome.resolved⟩
    ∧ onNotification okEnv upperCaseState ⟨⟨"ETH"⟩⟩ = ⟨[], Outcome.resolved⟩
    ∧ onError okEnv upperCaseState upperCaseState ⟨⟨"ETH"⟩⟩
        = ⟨⟨[], Outcome.resolved⟩, ⟨[], Outcome.resolved⟩⟩ := by
  decide

/-- C10, amended. Only the payload is lower-cased. For every payload shortcut `p` and
every configured network whose shortcut `c` equals `p` up to letter case and is itself
in lower case, `onBlockMined`, `onNotification` and `onError` resolve the payload to the
first configured network with shortcut `c`, which is that network when no other entry
shares its shortcut, and forward to the handler of its family. -/
theorem routing_matches_lower_case_config (env : Env) (st woken : State) (payload : Payload)
    (c : Network) (hc : c ∈ st.networks)
    (hcase : env.toLowerCase c.shortcut = env.toLowerCase payload.coin.shortcut)
    (hlow : env.toLowerCase c.shortcut = c.shortcut) :
    ∃ network, findNetwork st.networks (env.toLowerCase payload.coin.shortcut) = some network
      ∧ network ∈ st.networks ∧ network.shortcut = c.shortcut
      ∧ ((∀ d ∈ st.networks, d.shortcut = c.shortcut → d = c) → network = c)
      ∧ (network.type = "ethereum" →
          onBlockMined env st payload = env.callEthereum (AdapterCall.onBlockMined network)
          ∧ onNotification env st payload
              = env.callEthereum (AdapterCall.onNotification payload network)
          ∧ adapterCalls (onError env st woken payload).own.trace
              = [Event.ethereum (AdapterCall.onError (env.toLowerCase payload.coin.shortcut))])
      ∧ (network.type = "ripple" →
          onBlockMined env st payload = env.callRipple (AdapterCall.onBlockMined network)
          ∧ onNotification env st payload
              = env.callRipple (AdapterCall.onNotification payload network))
      ∧ reconnectsIssued (onError env st woken payload).own.trace
          = [env.toLowerCase payload.coin.shortcut] := by
  have hs : c.shortcut = env.toLowerCase payload.coin.shortcut := by rw [← hlow, hcase]
  obtain ⟨network, hf, hmem, hns⟩ := findNetwork_of_mem st.networks _ c hc hs
  refine ⟨network, hf, hmem, by rw [hns, hs], ?_, ?_, ?_, ?_⟩
  · intro hkey
    exact hkey network hmem (by rw [hns, hs])
  · intro ht
    refine ⟨by simp [onBlockMined, hf, ht], by simp [onNotification, hf, ht], ?_⟩
    rw [onError_own_ethereum env st woken payload network hf ht]
    have happ : ∀ a b : List Event, adapterCalls (a ++ b) = adapterCalls a ++ adapterCalls b := by
      intro a b; simp [adapterCalls]
    have hthunk : ∀ (t : Thunk) (l : List Event),
        adapterCalls (Event.thunk t :: l) = adapterCalls l := by
      intro t l; simp [adapterCalls, Event.isAdapterCall]
    simp only [hthunk, happ, adapterCalls_entry, List.nil_append]
    simp [adapterCalls, Event.isAdapterCall]
  · intro ht
    exact ⟨by simp [onBlockMined, hf, ht], by simp [onNotification, hf, ht]⟩
  · exact reconnectsIssued_onError env st woken payload network hf

/-- Witness for the amended C10: payload `ETH` reaches the network configured as `eth`. -/
theorem routing_matches_lower_case_config_witness :
    ∃ network, findNetwork (recordState false false 0).networks (okEnv.toLowerCase "ETH")
        = some network
      ∧ network ∈ (recordState false false 0).networks ∧ network.shortcut = "eth" :=
  let ⟨network, h1, h2, h3, _⟩ :=
    routing_matches_lower_case_config okEnv (recordState false false 0) (recordState false false 0)
      ⟨⟨"ETH"⟩⟩ ⟨"eth", "ethereum"⟩ (by decide) (by decide) (by decide)
  ⟨network, h1, h2, h3⟩

end BlockchainActions
